import Mathlib

/-!
Shallow embedding of the focusflow planner core
(`planner/views.py` `SessionViewSet.stop`, `planner/analytics.py`
`window_minutes`, `study_streak`, `due_soon_tasks`, `blueprint`) and
proofs about it.

Modelling conventions:
* instants (`started_at`, `ended_at`, `now`) are integers counting seconds;
* calendar dates are integers (Python `date.toordinal()`); subtracting two
  dates gives the `timedelta.days` of the source;
* Python floats are modelled as exact rationals (`ℚ`); the score weights
  `0.45/0.30/0.15/0.10` become `45/100` etc.;
* the record store is a list of records; Django querysets become list
  filters, `Sum` aggregates become list sums, and the stable sort of
  `list.sort` / `order_by` is `List.mergeSort` (stable) with the same key.
-/

namespace FocusFlow

/-- A `planner.models.Session` as `SessionViewSet.stop` sees it:
`started_at` is an instant in seconds, `ended_at` is `null` (running) or an
instant, `minutes` an integer (`PositiveIntegerField`, default 0). -/
structure Session where
  started_at : Int
  ended_at : Option Int
  minutes : Int
  deriving Repr, DecidableEq

/-- The error surfaced by `stop` as HTTP 400 `ALREADY_STOPPED`. -/
inductive StopError where
  | alreadyStopped
  deriving Repr, DecidableEq

/-- Embeds `SessionViewSet.stop` (planner/views.py): reject when `ended_at` is set;
otherwise set `ended_at = now`, compute the elapsed seconds and set
`minutes = max(0, ceil(seconds / 60))`. -/
def stop (s : Session) (now : Int) : Except StopError Session :=
  match s.ended_at with
  | some _ => .error .alreadyStopped
  | none =>
      let seconds : Int := now - s.started_at
      .ok { s with ended_at := some now
                   minutes := max 0 ⌈(seconds : ℚ) / 60⌉ }

/-- The whole `stop` endpoint acting on the stored row: on success the saved
row is the updated session, on failure the row is untouched and the error is
returned. -/
def applyStop (s : Session) (now : Int) : Session × Option StopError :=
  match stop s now with
  | .ok s' => (s', none)
  | .error e => (s, some e)

/-- C1: stopping a running session (`ended_at = null`) succeeds, sets
`ended_at = now` and sets `minutes = max(0, ceil((now - started_at)/60))`;
in particular 90 elapsed seconds give 2 minutes, 60 give 1, and a zero or
negative elapsed time gives 0. -/
theorem stop_running_sets_now_and_ceil_minutes (s : Session) (now : Int)
    (h : s.ended_at = none) :
    ∃ s', stop s now = .ok s' ∧
      s'.ended_at = some now ∧
      s'.started_at = s.started_at ∧
      s'.minutes = max 0 ⌈((now - s.started_at : ℤ) : ℚ) / 60⌉ ∧
      (now - s.started_at = 90 → s'.minutes = 2) ∧
      (now - s.started_at = 60 → s'.minutes = 1) ∧
      (now - s.started_at ≤ 0 → s'.minutes = 0) := by
  obtain ⟨a, e, m⟩ := s
  cases e with
  | some v => simp at h
  | none =>
    refine ⟨_, rfl, rfl, rfl, ?_, ?_, ?_, ?_⟩
    · push_cast
      ring_nf
    · intro h90
      have hx : (now : ℚ) - a = 90 := by exact_mod_cast h90
      show max 0 ⌈((now - a : ℤ) : ℚ) / 60⌉ = 2
      push_cast
      rw [hx]
      have : ⌈(90 : ℚ) / 60⌉ = 2 := by norm_num [Int.ceil_eq_iff]
      rw [this]
      decide
    · intro h60
      have hx : (now : ℚ) - a = 60 := by exact_mod_cast h60
      show max 0 ⌈((now - a : ℤ) : ℚ) / 60⌉ = 1
      push_cast
      rw [hx]
      have : ⌈(60 : ℚ) / 60⌉ = 1 := by norm_num [Int.ceil_eq_iff]
      rw [this]
      decide
    · intro hle
      have hx : (now : ℚ) - a ≤ 0 := by exact_mod_cast hle
      show max 0 ⌈((now - a : ℤ) : ℚ) / 60⌉ = 0
      have hceil : ⌈((now - a : ℤ) : ℚ) / 60⌉ ≤ 0 := by
        rw [Int.ceil_le]
        push_cast
        nlinarith
      omega

/-- Witness for C1 at a concrete running session, elapsed 90 seconds. -/
theorem stop_running_sets_now_and_ceil_minutes_witness :
    ∃ s', stop ⟨0, none, 0⟩ 90 = .ok s' ∧
      s'.ended_at = some 90 ∧
      s'.started_at = (⟨0, none, 0⟩ : Session).started_at ∧
      s'.minutes = max 0 ⌈((90 - (⟨0, none, 0⟩ : Session).started_at : ℤ) : ℚ) / 60⌉ ∧
      (90 - (⟨0, none, 0⟩ : Session).started_at = 90 → s'.minutes = 2) ∧
      (90 - (⟨0, none, 0⟩ : Session).started_at = 60 → s'.minutes = 1) ∧
      (90 - (⟨0, none, 0⟩ : Session).started_at ≤ 0 → s'.minutes = 0) :=
  stop_running_sets_now_and_ceil_minutes ⟨0, none, 0⟩ 90 rfl

/-- C2: stopping an already-stopped session fails with `AlreadyStopped` and
the stored row is exactly what it was before the call (same `minutes`, same
`ended_at`). -/
theorem stop_already_stopped_no_mutation (s : Session) (now e : Int)
    (h : s.ended_at = some e) :
    applyStop s now = (s, some .alreadyStopped) := by
  simp [applyStop, stop, h]

/-- Witness for C2 at a concrete stopped session. -/
theorem stop_already_stopped_no_mutation_witness :
    applyStop ⟨0, some 30, 1⟩ 90 = (⟨0, some 30, 1⟩, some .alreadyStopped) :=
  stop_already_stopped_no_mutation ⟨0, some 30, 1⟩ 90 30 rfl

/-- The `TODO/DOING/DONE` status choices of `planner.models.STATUS`. -/
inductive Status where
  | todo
  | doing
  | done
  deriving Repr, DecidableEq

/-- A stored `Session` row as the analytics queries see it: owner id,
optional topic reference (`SET_NULL`), the calendar date of `started_at`
(the queries only ever use `started_at__date`), whether `ended_at` is set,
and the `minutes` field (`PositiveIntegerField`). -/
structure SessionRec where
  userId : Nat
  topicId : Option Nat
  startedDate : Int
  ended : Bool
  minutes : Nat
  deriving Repr, DecidableEq

/-- A stored `Topic` row: id, owner and `struggle_level` (`IntegerField`,
default 0). -/
structure TopicRec where
  id : Nat
  userId : Nat
  struggle_level : Int
  deriving Repr, DecidableEq

/-- A stored `Task` row with the fields `due_soon_tasks` and `blueprint`
read via `.values(...)`: id, owner, title, topic reference, optional
`due_date`, `priority` (`PositiveSmallIntegerField`) and status. The schema
declares `Task.topic` non-nullable; the analytics code nevertheless reads
`topic_id` as a possibly-null value, so it is modelled as `Option Nat`. -/
structure TaskRec where
  id : Nat
  userId : Nat
  title : String
  topicId : Option Nat
  due_date : Option Int
  priority : Nat
  status : Status
  deriving Repr, DecidableEq

/-- The filter the `window_minutes` queryset applies to a session row
(`user=user, started_at__date__gte=since, ended_at__isnull=False`): owned,
started on or after the window start, stopped. -/
def inWindowQS (user : Nat) (since : Int) (s : SessionRec) : Bool :=
  s.userId == user && decide (since ≤ s.startedDate) && s.ended

/-- Embeds `window_minutes` (planner/analytics.py): filter the owner's stopped
sessions with `started_at__date >= today - (window_days - 1)` (note: the
source has no upper bound on the date), sum their minutes, and build one
`(date, minutes)` bucket per day of the window in chronological order. -/
def window_minutes (sessions : List SessionRec) (user : Nat)
    (window_days : Nat) (today : Int) : Nat × List (Int × Nat) :=
  let since : Int := today - ((window_days : Int) - 1)
  let qs := sessions.filter (inWindowQS user since)
  let total := (qs.map (·.minutes)).sum
  let days := (List.range window_days).map (fun d : Nat => since + (d : Int))
  let recent_activity := days.map
    (fun d => (d, ((qs.filter (fun s => s.startedDate == d)).map (·.minutes)).sum))
  (total, recent_activity)

/-- C4's claimed window membership: the `started_at` date lies between
`today - (window_days - 1)` and `today` inclusive. -/
def inClaimedWindow (window_days : Nat) (today : Int) (d : Int) : Prop :=
  today - ((window_days : Int) - 1) ≤ d ∧ d ≤ today

instance (window_days : Nat) (today d : Int) :
    Decidable (inClaimedWindow window_days today d) := by
  unfold inClaimedWindow
  infer_instance

/-- C4 counterexample: a stopped session of the owner dated `today + 1` —
outside the claimed window `[today - (window_days-1), today]` — still
contributes its minutes to `total_minutes` (the source filter has no upper
date bound), so the claimed "if and only if" fails. -/
theorem window_total_counts_future_session :
    (window_minutes [⟨0, none, 1, true, 5⟩] 0 7 0).1 = 5 ∧
      ¬ inClaimedWindow 7 0 1 := by
  constructor
  · rfl
  · decide

/-- C4 (amended): a session contributes to `total_minutes` iff it belongs
to the owner, is stopped, and its `started_at` date is on or after
`today - (window_days - 1)`; there is no upper date bound. Stated as:
adding one session to the store adds its minutes when it passes exactly
that filter and nothing otherwise, and dropping any session that fails the
filter leaves the total unchanged. -/
theorem window_total_counts_iff_owned_stopped_since (sessions : List SessionRec)
    (s : SessionRec) (user : Nat) (window_days : Nat) (today : Int) :
    (window_minutes (s :: sessions) user window_days today).1 =
      (if inWindowQS user (today - ((window_days : Int) - 1)) s
        then s.minutes else 0) +
      (window_minutes sessions user window_days today).1 := by
  simp only [window_minutes, List.filter_cons]
  cases hs : inWindowQS user (today - ((window_days : Int) - 1)) s <;> simp [hs]

/-- Restricting the `window_minutes` queryset to one day `d` of the window
is the same as filtering the store for owned stopped sessions started on
`d`. -/
theorem filter_window_day (sessions : List SessionRec) (user : Nat)
    (since d : Int) (hd : since ≤ d) :
    (sessions.filter (inWindowQS user since)).filter
      (fun s => s.startedDate == d) =
    sessions.filter
      (fun s => s.userId == user && s.ended && s.startedDate == d) := by
  rw [List.filter_filter]
  apply List.filter_congr
  intro s _
  by_cases h3 : s.startedDate = d
  · subst h3
    simp only [inWindowQS, beq_self_eq_true, Bool.and_true]
    rw [decide_eq_true hd]
    cases s.userId == user <;> cases s.ended <;> simp
  · have h3f : (s.startedDate == d) = false := by simp [h3]
    simp [h3f]

/-- C8: `recent_activity` has exactly `window_days` entries; the `i`-th
entry is labelled with the `i`-th day of the window (so the dates are
consecutive, chronological, ending on `today` when `window_days > 0`) and
its minutes are the sum of minutes of the owner's stopped sessions whose
`started_at` date equals that day; with no owned stopped session dated on
or after the window start, the total and every entry are 0. -/
theorem recent_activity_buckets (sessions : List SessionRec) (user : Nat)
    (window_days : Nat) (today : Int) :
    ((window_minutes sessions user window_days today).2.length = window_days) ∧
    (∀ i : Nat, ∀ hi : i < (window_minutes sessions user window_days today).2.length,
      (window_minutes sessions user window_days today).2.get ⟨i, hi⟩ =
        (today - ((window_days : Int) - 1) + (i : Int),
         ((sessions.filter (fun s => s.userId == user && s.ended &&
             s.startedDate == today - ((window_days : Int) - 1) + (i : Int))).map
           (·.minutes)).sum)) ∧
    ((∀ s ∈ sessions,
        ¬ (s.userId = user ∧ s.ended = true ∧
           today - ((window_days : Int) - 1) ≤ s.startedDate)) →
      (window_minutes sessions user window_days today).1 = 0 ∧
      ∀ p ∈ (window_minutes sessions user window_days today).2, p.2 = 0) := by
  refine ⟨?_, ?_, ?_⟩
  · simp [window_minutes]
  · intro i hi
    simp only [window_minutes, List.get_eq_getElem, List.getElem_map] at hi ⊢
    have hlen : i < window_days := by simpa [window_minutes] using hi
    rw [List.getElem_range]
    refine Prod.ext rfl ?_
    have hd : today - ((window_days : Int) - 1) ≤
        today - ((window_days : Int) - 1) + (i : Int) := by
      omega
    rw [filter_window_day sessions user _ _ hd]
  · intro hnone
    have hnil : sessions.filter
        (inWindowQS user (today - ((window_days : Int) - 1))) = [] := by
      rw [List.filter_eq_nil_iff]
      intro s hs
      have := hnone s hs
      simp only [inWindowQS, Bool.and_eq_true, beq_iff_eq, decide_eq_true_eq]
      rintro ⟨⟨h1, h2⟩, h3⟩
      exact this ⟨h1, h3, h2⟩
    constructor
    · simp only [window_minutes, hnil]
      simp
    · intro p hp
      simp only [window_minutes, hnil] at hp
      simp only [List.mem_map] at hp
      obtain ⟨d, _, hd⟩ := hp
      simp [← hd]

/-- Witness for C8 on a concrete empty store and a 2-day window. -/
theorem recent_activity_buckets_witness :
    (window_minutes [] 0 2 0).1 = 0 ∧
      ∀ p ∈ (window_minutes [] 0 2 0).2, p.2 = 0 :=
  (recent_activity_buckets [] 0 2 0).2.2 (by simp)

/-- C8 counterexample (zero-sessions corollary): the store holds a single
stopped session of the owner dated `today + 1`, so no session's start date
lies in the window `[today-6, today]`, yet `total_minutes` is 5, not 0 (the
total's date filter has no upper bound). -/
theorem recent_activity_future_session_total :
    (∀ s ∈ ([⟨0, none, 1, true, 5⟩] : List SessionRec),
        ¬ inClaimedWindow 7 0 s.startedDate) ∧
      (window_minutes [⟨0, none, 1, true, 5⟩] 0 7 0).1 = 5 := by
  constructor
  · decide
  · rfl

/-- Activity on day `D` (planner/analytics.py `study_streak`): the
owner has at least one stopped session whose `started_at` date is `D`. -/
def hasActivity (sessions : List SessionRec) (user : Nat) (day : Int) : Bool :=
  sessions.any (fun s => s.userId == user && s.startedDate == day && s.ended)

/-- Number of the owner's stopped sessions started on or before `day`; the
termination measure for the backward walk of `study_streak`. -/
def countLE (sessions : List SessionRec) (user : Nat) (day : Int) : Nat :=
  (sessions.filter
    (fun s => s.userId == user && s.ended && decide (s.startedDate ≤ day))).length

/-- If `p` implies `q` pointwise, `filter p` is no longer than `filter q`. -/
theorem length_filter_mono {α : Type} {p q : α → Bool} (l : List α)
    (h : ∀ x, p x = true → q x = true) :
    (l.filter p).length ≤ (l.filter q).length := by
  induction l with
  | nil => simp
  | cons a t ih =>
    by_cases hp : p a = true
    · have hq := h a hp
      simp [List.filter_cons, hp, hq]
      omega
    · have hp' : p a = false := by revert hp; cases p a <;> simp
      cases hq : q a <;> simp [List.filter_cons, hp', hq] <;> omega

/-- If `p` implies `q` pointwise and some member satisfies `q` but not `p`,
`filter p` is strictly shorter than `filter q`. -/
theorem length_filter_lt {α : Type} {p q : α → Bool} (l : List α)
    (h : ∀ x, p x = true → q x = true) (x : α) (hx : x ∈ l)
    (hqx : q x = true) (hpx : p x = false) :
    (l.filter p).length < (l.filter q).length := by
  induction l with
  | nil => simp at hx
  | cons a t ih =>
    rcases List.mem_cons.mp hx with rfl | hx'
    · have := length_filter_mono (p := p) (q := q) t h
      simp [List.filter_cons, hpx, hqx]
      omega
    · have := ih hx'
      by_cases hp : p a = true
      · have hq := h a hp
        simp [List.filter_cons, hp, hq]
        omega
      · have hp' : p a = false := by revert hp; cases p a <;> simp
        cases hq : q a <;> simp [List.filter_cons, hp', hq] <;> omega

/-- A day with activity has at least one session at that exact date, so the
count of sessions up to the previous day strictly drops. -/
theorem countLE_pred_lt (sessions : List SessionRec) (user : Nat) (day : Int)
    (h : hasActivity sessions user day = true) :
    countLE sessions user (day - 1) < countLE sessions user day := by
  simp only [hasActivity, List.any_eq_true] at h
  obtain ⟨s, hs, hpred⟩ := h
  simp only [Bool.and_eq_true, beq_iff_eq] at hpred
  obtain ⟨⟨h1, h2⟩, h3⟩ := hpred
  apply length_filter_lt _ ?_ s hs ?_ ?_
  · intro x hx
    simp only [Bool.and_eq_true, decide_eq_true_eq] at hx ⊢
    exact ⟨hx.1, by omega⟩
  · simp only [Bool.and_eq_true, beq_iff_eq, decide_eq_true_eq]
    exact ⟨⟨h1, h3⟩, by omega⟩
  · have hno : ¬ (s.startedDate ≤ day - 1) := by omega
    simp [h1, h3, hno]

/-- The count `countLE` is monotone in the day. -/
theorem countLE_mono (sessions : List SessionRec) (user : Nat) {d e : Int}
    (h : d ≤ e) : countLE sessions user d ≤ countLE sessions user e := by
  apply length_filter_mono
  intro s hs
  simp only [Bool.and_eq_true, decide_eq_true_eq] at hs ⊢
  exact ⟨hs.1, by omega⟩

/-- The `while True` loop of `study_streak` (planner/analytics.py) in state
`(delta, streak)`: examine `day = today - delta`; on activity count it and
walk back; otherwise, only when `delta == 0` and yesterday had activity,
skip today's gap once (grace) without counting; otherwise return the
accumulated streak. Termination: each counting step walks past at least one
stopped session, and the grace step can fire at most once. -/
def streakLoop (sessions : List SessionRec) (user : Nat) (today : Int)
    (delta streak : Nat) : Nat :=
  if hasActivity sessions user (today - (delta : Int)) then
    streakLoop sessions user today (delta + 1) (streak + 1)
  else if delta == 0 && hasActivity sessions user (today - 1) then
    streakLoop sessions user today (delta + 1) streak
  else streak
termination_by
  (countLE sessions user (today - (delta : Int)), if delta = 0 then 1 else 0)
decreasing_by
  · have harith : today - ((delta + 1 : Nat) : Int) = today - (delta : Int) - 1 := by
      push_cast
      ring
    rw [harith]
    exact Prod.Lex.left _ _
      (countLE_pred_lt sessions user (today - (delta : Int)) (by assumption))
  · rename_i hno hgrace
    have hdelta : delta = 0 := by
      rcases Bool.and_eq_true _ _ |>.mp hgrace with ⟨h0, _⟩
      simpa using h0
    subst hdelta
    have harith : today - ((0 + 1 : Nat) : Int) = today - 1 := by push_cast; ring
    rw [harith]
    have hle : countLE sessions user (today - 1) ≤
        countLE sessions user (today - (0 : Nat)) := by
      apply countLE_mono
      omega
    rcases lt_or_eq_of_le hle with hlt | heq
    · exact Prod.Lex.left _ _ hlt
    · rw [heq]
      exact Prod.Lex.right _ (by norm_num)

/-- Embeds `study_streak`: run the walk from `today` with both counters at 0. -/
def study_streak (sessions : List SessionRec) (user : Nat) (today : Int) : Nat :=
  streakLoop sessions user today 0 0

/-- The plain backward count of consecutive active days starting at `day`,
with no grace: the value the loop computes once it is past the `delta = 0`
boundary. -/
def streakFrom (sessions : List SessionRec) (user : Nat) (day : Int) : Nat :=
  if hasActivity sessions user day then streakFrom sessions user (day - 1) + 1
  else 0
termination_by countLE sessions user day
decreasing_by exact countLE_pred_lt sessions user day (by assumption)

/-- Past the first iteration the loop just accumulates the plain backward
count. -/
theorem streakLoop_eq_add (sessions : List SessionRec) (user : Nat)
    (today : Int) :
    ∀ n : Nat, ∀ delta streak : Nat,
      countLE sessions user (today - (delta : Int)) = n →
      1 ≤ delta →
      streakLoop sessions user today delta streak =
        streak + streakFrom sessions user (today - (delta : Int)) := by
  intro n
  induction n using Nat.strong_induction_on with
  | _ n ih =>
    intro delta streak hn hd
    have harith : today - ((delta + 1 : Nat) : Int) = today - (delta : Int) - 1 := by
      push_cast
      ring
    by_cases h : hasActivity sessions user (today - (delta : Int)) = true
    · rw [streakLoop, if_pos h]
      have hlt : countLE sessions user (today - (delta : Int) - 1) < n := by
        rw [← hn]
        exact countLE_pred_lt sessions user (today - (delta : Int)) h
      rw [ih _ hlt (delta + 1) (streak + 1) (by rw [harith]) (by omega)]
      rw [harith]
      conv_rhs => rw [streakFrom]
      rw [if_pos h]
      omega
    · have hne : (delta == 0) = false := by
        simp only [beq_eq_false_iff_ne, ne_eq]
        omega
      rw [streakLoop, if_neg h, hne]
      simp only [Bool.false_and, Bool.false_eq_true, if_false]
      rw [streakFrom, if_neg h]
      omega

/-- The loop from the start equals: the plain count from `today` when today
is active, else (grace) the plain count from yesterday when yesterday is
active, else 0. -/
theorem study_streak_eq (sessions : List SessionRec) (user : Nat) (today : Int) :
    study_streak sessions user today =
      if hasActivity sessions user today then streakFrom sessions user today
      else if hasActivity sessions user (today - 1) then
        streakFrom sessions user (today - 1)
      else 0 := by
  unfold study_streak
  have hz : today - ((0 : Nat) : Int) = today := by push_cast; ring
  by_cases h0 : hasActivity sessions user today = true
  · rw [streakLoop]
    rw [if_pos (by rw [hz]; exact h0)]
    rw [streakLoop_eq_add sessions user today _ 1 1 rfl (by omega)]
    have h1 : today - ((1 : Nat) : Int) = today - 1 := by push_cast; ring
    rw [h1]
    conv_rhs => rw [if_pos h0, streakFrom, if_pos h0]
    omega
  · rw [streakLoop]
    rw [if_neg (by rw [hz]; exact h0)]
    by_cases h1 : hasActivity sessions user (today - 1) = true
    · rw [if_pos (by simp [h1])]
      rw [streakLoop_eq_add sessions user today _ 1 0 rfl (by omega)]
      have hc : today - ((1 : Nat) : Int) = today - 1 := by push_cast; ring
      rw [hc]
      rw [if_neg h0, if_pos h1]
      omega
    · rw [if_neg (by simp [h1])]
      rw [if_neg h0, if_neg h1]

/-- C5: walking back from `today`: activity on `D-2`, `D-1`, `D` and none
on `D-3` gives streak 3; activity on `D-2`, `D-1` but none on `D` (grace)
and none on `D-3` gives 2; no activity on `D` and `D-1` gives 0. -/
theorem study_streak_scenarios (sessions : List SessionRec) (user : Nat)
    (today : Int) :
    ((hasActivity sessions user today = true ∧
      hasActivity sessions user (today - 1) = true ∧
      hasActivity sessions user (today - 2) = true ∧
      hasActivity sessions user (today - 3) = false) →
        study_streak sessions user today = 3) ∧
    ((hasActivity sessions user today = false ∧
      hasActivity sessions user (today - 1) = true ∧
      hasActivity sessions user (today - 2) = true ∧
      hasActivity sessions user (today - 3) = false) →
        study_streak sessions user today = 2) ∧
    ((hasActivity sessions user today = false ∧
      hasActivity sessions user (today - 1) = false) →
        study_streak sessions user today = 0) := by
  have e1 : today - 1 - 1 = today - 2 := by ring
  have e2 : today - 2 - 1 = today - 3 := by ring
  refine ⟨?_, ?_, ?_⟩
  · rintro ⟨h0, h1, h2, h3⟩
    rw [study_streak_eq, if_pos h0, streakFrom, if_pos h0, streakFrom,
      if_pos h1, e1, streakFrom, if_pos h2, e2, streakFrom, if_neg (by simp [h3])]
  · rintro ⟨h0, h1, h2, h3⟩
    rw [study_streak_eq, if_neg (by simp [h0]), if_pos h1, streakFrom,
      if_pos h1, e1, streakFrom, if_pos h2, e2, streakFrom,
      if_neg (by simp [h3])]
  · rintro ⟨h0, h1⟩
    rw [study_streak_eq, if_neg (by simp [h0]), if_neg (by simp [h1])]

/-- Witness for C5: sessions on days 8, 9, 10 with `today = 10` give
streak 3. -/
theorem study_streak_scenarios_witness :
    study_streak [⟨0, none, 10, true, 5⟩, ⟨0, none, 9, true, 5⟩,
      ⟨0, none, 8, true, 5⟩] 0 10 = 3 :=
  (study_streak_scenarios [⟨0, none, 10, true, 5⟩, ⟨0, none, 9, true, 5⟩,
      ⟨0, none, 8, true, 5⟩] 0 10).1 ⟨by decide, by decide, by decide, by decide⟩

/-- The plain backward count never exceeds the number of stopped sessions
dated on or before its start day. -/
theorem streakFrom_le (sessions : List SessionRec) (user : Nat) :
    ∀ n day, countLE sessions user day = n →
      streakFrom sessions user day ≤ n := by
  intro n
  induction n using Nat.strong_induction_on with
  | _ n ih =>
    intro day hn
    by_cases h : hasActivity sessions user day = true
    · rw [streakFrom, if_pos h]
      have hlt : countLE sessions user (day - 1) < n := by
        rw [← hn]
        exact countLE_pred_lt sessions user day h
      have := ih _ hlt (day - 1) rfl
      omega
    · rw [streakFrom, if_neg h]
      omega

/-- C10: the backward walk terminates, and its result is bounded by the
number of the owner's stopped sessions dated on or before `today` (each
counted day consumes at least one such session; the grace skip adds
nothing). That `study_streak` is a total function of the finite store is
exactly the loop's termination. -/
theorem study_streak_le_session_count (sessions : List SessionRec)
    (user : Nat) (today : Int) :
    study_streak sessions user today ≤ countLE sessions user today := by
  rw [study_streak_eq]
  by_cases h0 : hasActivity sessions user today = true
  · rw [if_pos h0]
    exact streakFrom_le sessions user _ today rfl
  · rw [if_neg h0]
    by_cases h1 : hasActivity sessions user (today - 1) = true
    · rw [if_pos h1]
      calc streakFrom sessions user (today - 1)
          ≤ countLE sessions user (today - 1) :=
            streakFrom_le sessions user _ (today - 1) rfl
        _ ≤ countLE sessions user today := countLE_mono sessions user (by omega)
    · rw [if_neg h1]
      omega

/-- The filter `status__in=["TODO", "DOING"]`: the task is open. -/
def isOpen (t : TaskRec) : Bool :=
  t.status == .todo || t.status == .doing

/-- The `due_soon_tasks` queryset filter: owned, open, with a due date. -/
def dueSoonFilter (user : Nat) (t : TaskRec) : Bool :=
  t.userId == user && isOpen t && !(t.due_date == none)

/-- The `order_by("due_date", "-priority")` comparison: lexicographic on
(due date ascending, priority descending). Every compared task has a due
date (the queryset excludes null ones); `getD 0` only unpacks the `some`. -/
def dueSoonLE (a b : TaskRec) : Bool :=
  decide (toLex (a.due_date.getD 0, -(a.priority : Int)) ≤
    toLex (b.due_date.getD 0, -(b.priority : Int)))

/-- Embeds `due_soon_tasks` (planner/analytics.py): owned open tasks with a due
date, ordered by due date then descending priority, first `limit` of
them. -/
def due_soon_tasks (tasks : List TaskRec) (user : Nat) (limit : Nat) :
    List TaskRec :=
  ((tasks.filter (dueSoonFilter user)).mergeSort dueSoonLE).take limit

unseal List.merge List.mergeSort in
/-- Sorting a two-element list is a single comparison. -/
theorem mergeSort_pair {α : Type} (le : α → α → Bool) (a b : α) :
    [a, b].mergeSort le = if le a b then [a, b] else [b, a] := by
  simp [List.mergeSort, List.merge]

unseal List.merge List.mergeSort in
/-- Sorting a singleton list returns it unchanged. -/
theorem mergeSort_single {α : Type} (le : α → α → Bool) (a : α) :
    [a].mergeSort le = [a] := rfl

/-- The comparison `dueSoonLE` is transitive (a lexicographic linear order). -/
theorem dueSoonLE_trans (a b c : TaskRec) (hab : dueSoonLE a b = true)
    (hbc : dueSoonLE b c = true) : dueSoonLE a c = true := by
  simp only [dueSoonLE, decide_eq_true_eq] at hab hbc ⊢
  exact le_trans hab hbc

/-- The comparison `dueSoonLE` is total. -/
theorem dueSoonLE_total (a b : TaskRec) :
    (dueSoonLE a b || dueSoonLE b a) = true := by
  simp only [dueSoonLE, Bool.or_eq_true, decide_eq_true_eq]
  exact le_total _ _

/-- C9: `due_soon_tasks` returns only the owner's open tasks with a due
date, at most `limit` of them, ordered ascending by due date with ties
broken by descending priority; and when the owner's matching tasks are
exactly two with equal due dates and priorities 1 and 3, the priority-3
task comes first. -/
theorem due_soon_tasks_spec (tasks : List TaskRec) (user : Nat) (limit : Nat) :
    (∀ t ∈ due_soon_tasks tasks user limit,
      t ∈ tasks ∧ t.userId = user ∧
        (t.status = Status.todo ∨ t.status = Status.doing) ∧
        t.due_date ≠ none) ∧
    (due_soon_tasks tasks user limit).length ≤ limit ∧
    (due_soon_tasks tasks user limit).Pairwise (fun a b =>
      a.due_date.getD 0 < b.due_date.getD 0 ∨
        (a.due_date.getD 0 = b.due_date.getD 0 ∧ b.priority ≤ a.priority)) ∧
    (∀ a b, tasks.filter (dueSoonFilter user) = [a, b] →
      a.due_date = b.due_date → a.priority = 1 → b.priority = 3 → 2 ≤ limit →
      due_soon_tasks tasks user limit = [b, a]) := by
  refine ⟨?_, ?_, ?_, ?_⟩
  · intro t ht
    have ht' := List.mem_of_mem_take ht
    have ht'' := ((tasks.filter (dueSoonFilter user)).mergeSort_perm
      dueSoonLE).mem_iff.mp ht'
    rw [List.mem_filter] at ht''
    obtain ⟨hmem, hf⟩ := ht''
    simp only [dueSoonFilter, isOpen, Bool.and_eq_true, Bool.or_eq_true,
      beq_iff_eq, Bool.not_eq_true', beq_eq_false_iff_ne, ne_eq] at hf
    exact ⟨hmem, hf.1.1, hf.1.2, hf.2⟩
  · exact List.length_take_le _ _
  · have hs := List.sorted_mergeSort dueSoonLE_trans dueSoonLE_total
      (tasks.filter (dueSoonFilter user))
    have hsub : List.Sublist (due_soon_tasks tasks user limit)
        ((tasks.filter (dueSoonFilter user)).mergeSort dueSoonLE) :=
      List.take_sublist _ _
    refine (hs.sublist hsub).imp ?_
    intro a b hab
    simp only [dueSoonLE, decide_eq_true_eq, Prod.Lex.le_iff] at hab
    rcases hab with h | ⟨h1, h2⟩
    · exact Or.inl h
    · refine Or.inr ⟨h1, ?_⟩
      have : (b.priority : Int) ≤ (a.priority : Int) := by omega
      exact_mod_cast this
  · intro a b hfil hdue hpa hpb hlim
    have hle : dueSoonLE a b = false := by
      simp only [dueSoonLE, decide_eq_false_iff_not, Prod.Lex.le_iff, hdue,
        hpa, hpb]
      push_neg
      constructor
      · omega
      · intro _
        norm_num
    unfold due_soon_tasks
    rw [hfil, mergeSort_pair, hle]
    simp only [Bool.false_eq_true, if_false]
    exact List.take_of_length_le (by simpa using hlim)

/-- Witness for C9: two open tasks due the same day with priorities 1 and
3; the priority-3 task ranks first. -/
theorem due_soon_tasks_spec_witness :
    due_soon_tasks [⟨1, 0, "a", none, some 10, 1, .todo⟩,
      ⟨2, 0, "b", none, some 10, 3, .todo⟩] 0 5 =
      [⟨2, 0, "b", none, some 10, 3, .todo⟩,
       ⟨1, 0, "a", none, some 10, 1, .todo⟩] :=
  (due_soon_tasks_spec [⟨1, 0, "a", none, some 10, 1, .todo⟩,
      ⟨2, 0, "b", none, some 10, 3, .todo⟩] 0 5).2.2.2
    ⟨1, 0, "a", none, some 10, 1, .todo⟩
    ⟨2, 0, "b", none, some 10, 3, .todo⟩
    rfl rfl rfl rfl (by omega)

/-- Python's `date.max` (9999-12-31) as an ordinal; `blueprint` sorts
tasks without a due date with this key (`x["due_date"] or date.max`). -/
def dateMax : Int := 3652059

/-- The `topic_recent` set of `blueprint`: ids of topics having a stopped
session of the owner with `started_at__date >= today - 7` (note: an
eight-day-and-later window, not seven days) and a non-null topic. -/
def topicRecent (sessions : List SessionRec) (user : Nat) (today : Int) :
    List Nat :=
  ((sessions.filter (fun s => s.userId == user && s.ended &&
      decide (today - 7 ≤ s.startedDate) && !(s.topicId == none))).filterMap
    (·.topicId)).dedup

/-- Python's `topic_id in topic_recent`: `None` is never a member. -/
def inRecent (recent : List Nat) : Option Nat → Bool
  | some tid => recent.contains tid
  | none => false

/-- The struggle lookup of `blueprint`: `Topic.objects.get(id=..., user=...)`
with `DoesNotExist` giving 0 (`getattr(t, "struggle_level", 0) or 0` is the
identity on the integer field). -/
def lookupStruggle (topics : List TopicRec) (user : Nat) (tid : Option Nat) :
    Int :=
  match topics.find? (fun t => some t.id == tid && t.userId == user) with
  | some t => t.struggle_level
  | none => 0

/-- Rounding to six decimal digits, the model of Python float formatting
with six fractional digits followed by parsing the result back. -/
def roundTo6 (q : ℚ) : ℚ := (round (q * 1000000) : ℚ) / 1000000

/-- The score `blueprint` computes for one task row:
`0.45*priority + 0.30*struggle + 0.15*recency + 0.10*urgency`, rounded to
six decimals, with `priority = r["priority"] or 2` (so priority 0 also
falls back to 2), `recency = 0` iff the topic is in `topic_recent`, and
`urgency = 1/max(1, due - today)` for a dated task, else 0. -/
def taskScore (topics : List TopicRec) (recent : List Nat) (user : Nat)
    (today : Int) (r : TaskRec) : ℚ :=
  let priority : Nat := if r.priority == 0 then 2 else r.priority
  let struggle : Int := lookupStruggle topics user r.topicId
  let recency : ℚ := if inRecent recent r.topicId then 0 else 1
  let urgency : ℚ :=
    match r.due_date with
    | some d => 1 / ((max 1 (d - today) : Int) : ℚ)
    | none => 0
  roundTo6 ((45 / 100) * (priority : ℚ) + (30 / 100) * (struggle : ℚ) +
    (15 / 100) * recency + (10 / 100) * urgency)

/-- A `blueprint` output row: the task row plus its float `score`. -/
structure BPRow where
  task : TaskRec
  score : ℚ
  deriving Repr, DecidableEq

/-- The sort key of `blueprint`'s final ordering:
`(-score, due_date or date.max, -priority, topic_id in topic_recent)`,
compared lexicographically (Python tuple comparison; the boolean last
component becomes 0/1). -/
def bpKey (recent : List Nat) (x : BPRow) : ℚ ×ₗ (Int ×ₗ (Int ×ₗ Int)) :=
  toLex (-x.score, toLex (x.task.due_date.getD dateMax,
    toLex (-(x.task.priority : Int),
      if inRecent recent x.task.topicId then 1 else 0)))

/-- The comparison used to sort `blueprint`'s rows. -/
def bpLE (recent : List Nat) (a b : BPRow) : Bool :=
  decide (bpKey recent a ≤ bpKey recent b)

/-- Embeds `blueprint` (planner/analytics.py): score the owner's open tasks, sort
by `(-score, due_date or date.max, -priority, recently-studied flag)` and
return the first `limit` rows. -/
def blueprint (sessions : List SessionRec) (topics : List TopicRec)
    (tasks : List TaskRec) (user : Nat) (limit : Nat) (today : Int) :
    List BPRow :=
  let topic_recent := topicRecent sessions user today
  let rows := tasks.filter (fun t => t.userId == user && isOpen t)
  let out := rows.map (fun r => ⟨r, taskScore topics topic_recent user today r⟩)
  (out.mergeSort (bpLE topic_recent)).take limit

/-- Every row `blueprint` returns is an owned open task of the store paired
with exactly its `taskScore`. -/
theorem blueprint_mem (sessions : List SessionRec) (topics : List TopicRec)
    (tasks : List TaskRec) (user : Nat) (limit : Nat) (today : Int) :
    ∀ x ∈ blueprint sessions topics tasks user limit today,
      x.task ∈ tasks ∧ x.task.userId = user ∧ isOpen x.task = true ∧
        x.score = taskScore topics (topicRecent sessions user today) user
          today x.task := by
  intro x hx
  have hx' := List.mem_of_mem_take hx
  have hx'' := (List.mergeSort_perm _ (bpLE (topicRecent sessions user today))).mem_iff.mp hx'
  simp only [List.mem_map] at hx''
  obtain ⟨r, hr, rfl⟩ := hx''
  rw [List.mem_filter] at hr
  obtain ⟨hmem, hf⟩ := hr
  simp only [Bool.and_eq_true, beq_iff_eq] at hf
  exact ⟨hmem, hf.1, hf.2, rfl⟩

/-- The comparison `bpLE` is transitive (lexicographic on linear-order keys). -/
theorem bpLE_trans (recent : List Nat) (a b c : BPRow)
    (hab : bpLE recent a b = true) (hbc : bpLE recent b c = true) :
    bpLE recent a c = true := by
  simp only [bpLE, decide_eq_true_eq] at hab hbc ⊢
  exact le_trans hab hbc

/-- The comparison `bpLE` is total. -/
theorem bpLE_total (recent : List Nat) (a b : BPRow) :
    (bpLE recent a b || bpLE recent b a) = true := by
  simp only [bpLE, Bool.or_eq_true, decide_eq_true_eq]
  exact le_total _ _

/-- Evaluating `blueprint` over a single open owned task gives that task and
its score. -/
theorem blueprint_single_eval (sessions : List SessionRec)
    (topics : List TopicRec) (t : TaskRec) (user : Nat) (limit : Nat)
    (today : Int) (hf : (t.userId == user && isOpen t) = true)
    (hl : 1 ≤ limit) :
    blueprint sessions topics [t] user limit today =
      [⟨t, taskScore topics (topicRecent sessions user today) user today t⟩] := by
  unfold blueprint
  rw [show List.filter (fun t => t.userId == user && isOpen t) [t] = [t] by
    simp [List.filter_cons, hf]]
  simp only [List.map_cons, List.map_nil, mergeSort_single]
  exact List.take_of_length_le (by simpa using hl)

/-- The flag `topic_id in topic_recent` is false exactly when the task has
no topic or its topic has no stopped session of the owner dated on or
after `today - 7`. -/
theorem inRecent_eq_false_iff (sessions : List SessionRec) (user : Nat)
    (today : Int) (tid_opt : Option Nat) :
    inRecent (topicRecent sessions user today) tid_opt = false ↔
      (tid_opt = none ∨
        ∀ s ∈ sessions, ¬(s.userId = user ∧ s.ended = true ∧
          today - 7 ≤ s.startedDate ∧ s.topicId = tid_opt)) := by
  cases tid_opt with
  | none =>
    simp [inRecent]
  | some tid =>
    have hiff : inRecent (topicRecent sessions user today) (some tid) = true ↔
        ∃ s ∈ sessions, (s.userId = user ∧ s.ended = true ∧
          today - 7 ≤ s.startedDate) ∧ s.topicId = some tid := by
      simp [inRecent, topicRecent, List.mem_filter]
      constructor
      · rintro ⟨a, ⟨ha, ⟨⟨h1, h2⟩, h3⟩, _⟩, h4⟩
        exact ⟨a, ha, ⟨h1, h2, h3⟩, h4⟩
      · rintro ⟨s, hs, ⟨h1, h2, h3⟩, h4⟩
        exact ⟨s, ⟨hs, ⟨⟨h1, h2⟩, h3⟩, by simp [h4]⟩, h4⟩
    rw [← Bool.not_eq_true, hiff]
    constructor
    · intro h
      refine Or.inr ?_
      intro s hs hcon
      exact h ⟨s, hs, ⟨hcon.1, hcon.2.1, hcon.2.2.1⟩, hcon.2.2.2⟩
    · rintro (hnone | h) ⟨s, hs, hP, hQ⟩
      · exact Option.noConfusion hnone
      · exact h s hs ⟨hP.1, hP.2.1, hP.2.2, hQ⟩

/-- C6 (amended): every row `blueprint` returns carries
`score = round6(0.45*priority + 0.30*struggle + 0.15*recency +
0.10*urgency)` where priority is the task's priority except that an unset,
missing or zero priority becomes 2 (the source uses the falsy-default
`r["priority"] or 2`), struggle is the owner's referenced topic's
`struggle_level` (0 when the topic is missing), recency is the 0/1
`topic_recent` flag, and urgency is `1/max(1, due - today)` for a dated
task and 0 otherwise. -/
theorem blueprint_score_formula (sessions : List SessionRec)
    (topics : List TopicRec) (tasks : List TaskRec) (user : Nat)
    (limit : Nat) (today : Int) :
    ∀ x ∈ blueprint sessions topics tasks user limit today,
      x.score = roundTo6 (
        (45 / 100) * ((if x.task.priority = 0 then 2 else x.task.priority : Nat) : ℚ) +
        (30 / 100) * ((lookupStruggle topics user x.task.topicId : Int) : ℚ) +
        (15 / 100) * (if inRecent (topicRecent sessions user today) x.task.topicId
          then (0 : ℚ) else 1) +
        (10 / 100) * (match x.task.due_date with
          | some d => (1 : ℚ) / ((max 1 (d - today) : Int) : ℚ)
          | none => (0 : ℚ))) := by
  intro x hx
  have h := (blueprint_mem sessions topics tasks user limit today x hx).2.2.2
  rw [h]
  by_cases hp : x.task.priority = 0
  · simp [taskScore, hp]
  · simp [taskScore, hp]

/-- Witness for C6 at the single open task `⟨1, 0, "t", none, none, 2, todo⟩`
of an otherwise empty store. -/
theorem blueprint_score_formula_witness :
    (⟨⟨1, 0, "t", none, none, 2, .todo⟩,
      taskScore [] (topicRecent [] 0 0) 0 0
        ⟨1, 0, "t", none, none, 2, .todo⟩⟩ : BPRow).score =
      roundTo6 (
        (45 / 100) * ((if (⟨1, 0, "t", none, none, 2, .todo⟩ : TaskRec).priority = 0
          then 2 else (⟨1, 0, "t", none, none, 2, .todo⟩ : TaskRec).priority : Nat) : ℚ) +
        (30 / 100) * ((lookupStruggle [] 0
          (⟨1, 0, "t", none, none, 2, .todo⟩ : TaskRec).topicId : Int) : ℚ) +
        (15 / 100) * (if inRecent (topicRecent [] 0 0)
          (⟨1, 0, "t", none, none, 2, .todo⟩ : TaskRec).topicId
          then (0 : ℚ) else 1) +
        (10 / 100) * (match (⟨1, 0, "t", none, none, 2, .todo⟩ : TaskRec).due_date with
          | some d => (1 : ℚ) / ((max 1 (d - 0) : Int) : ℚ)
          | none => (0 : ℚ))) :=
  blueprint_score_formula [] [] [⟨1, 0, "t", none, none, 2, .todo⟩] 0 5 0 _
    (by rw [blueprint_single_eval [] [] ⟨1, 0, "t", none, none, 2, .todo⟩ 0 5 0
          rfl (by omega)]
        exact List.mem_singleton.mpr rfl)

/-- C6 counterexample: a stored task with priority 0 (storable: the field
is a non-negative integer with no validator). The source's
`r["priority"] or 2` treats it as 2, so the returned score is
`round6(0.45*2 + 0.15) = 1.05`, not the `round6(0.45*0 + 0.15) = 0.15`
that scoring "the task's priority" would give. -/
theorem blueprint_priority_zero_default :
    ((blueprint [] [] [⟨1, 0, "t", none, none, 0, .todo⟩] 0 5 0).map
      (·.score)) = [21 / 20] ∧
    (21 / 20 : ℚ) ≠ roundTo6 (
      (45 / 100) * (((⟨1, 0, "t", none, none, 0, .todo⟩ : TaskRec).priority : Nat) : ℚ) +
      (30 / 100) * 0 + (15 / 100) * 1 + (10 / 100) * 0) := by
  constructor
  · rw [blueprint_single_eval [] [] ⟨1, 0, "t", none, none, 0, .todo⟩ 0 5 0
      rfl (by omega)]
    simp only [List.map_cons, List.map_nil]
    have hsc : taskScore [] (topicRecent [] 0 0) 0 0
        ⟨1, 0, "t", none, none, 0, .todo⟩ = 21 / 20 := by
      simp only [taskScore, lookupStruggle, inRecent, topicRecent, roundTo6]
      norm_num [round_eq]
    rw [hsc]
  · norm_num [roundTo6, round_eq]

/-- C3 (amended): for every row `blueprint` returns, its score is the
task's `taskScore` (so it uses the recency component below), and that
component — `1` unless the topic is in `topic_recent`, `0` otherwise — is
`1` exactly when the task has no topic reference or the topic has no
stopped session of the owner whose `started_at` date is on or after
`today - 7` (the source window is `__gte today - 7`: eight calendar days
through `today` plus any later date, not the seven days `[today-6,
today]`). -/
theorem blueprint_recency_component (sessions : List SessionRec)
    (topics : List TopicRec) (tasks : List TaskRec) (user : Nat)
    (limit : Nat) (today : Int) :
    ∀ x ∈ blueprint sessions topics tasks user limit today,
      x.score = taskScore topics (topicRecent sessions user today) user
        today x.task ∧
      ((if inRecent (topicRecent sessions user today) x.task.topicId
          then (0 : ℚ) else 1) = 1 ↔
        (x.task.topicId = none ∨
          ∀ s ∈ sessions, ¬(s.userId = user ∧ s.ended = true ∧
            today - 7 ≤ s.startedDate ∧ s.topicId = x.task.topicId))) := by
  intro x hx
  refine ⟨(blueprint_mem sessions topics tasks user limit today x hx).2.2.2, ?_⟩
  rw [← inRecent_eq_false_iff sessions user today x.task.topicId]
  cases hr : inRecent (topicRecent sessions user today) x.task.topicId <;>
    simp [hr]

/-- Witness for C3 on a one-task store whose topic was studied exactly on
`today - 7`. -/
theorem blueprint_recency_component_witness :
    (⟨⟨1, 0, "t", some 1, none, 2, .todo⟩,
      taskScore [⟨1, 0, 0⟩]
        (topicRecent [⟨0, some 1, -7, true, 5⟩] 0 0) 0 0
        ⟨1, 0, "t", some 1, none, 2, .todo⟩⟩ : BPRow).score =
      taskScore [⟨1, 0, 0⟩] (topicRecent [⟨0, some 1, -7, true, 5⟩] 0 0) 0 0
        (⟨⟨1, 0, "t", some 1, none, 2, .todo⟩,
          taskScore [⟨1, 0, 0⟩]
            (topicRecent [⟨0, some 1, -7, true, 5⟩] 0 0) 0 0
            ⟨1, 0, "t", some 1, none, 2, .todo⟩⟩ : BPRow).task ∧
    ((if inRecent (topicRecent [⟨0, some 1, -7, true, 5⟩] 0 0)
        (⟨⟨1, 0, "t", some 1, none, 2, .todo⟩,
          taskScore [⟨1, 0, 0⟩]
            (topicRecent [⟨0, some 1, -7, true, 5⟩] 0 0) 0 0
            ⟨1, 0, "t", some 1, none, 2, .todo⟩⟩ : BPRow).task.topicId
        then (0 : ℚ) else 1) = 1 ↔
      ((⟨⟨1, 0, "t", some 1, none, 2, .todo⟩,
          taskScore [⟨1, 0, 0⟩]
            (topicRecent [⟨0, some 1, -7, true, 5⟩] 0 0) 0 0
            ⟨1, 0, "t", some 1, none, 2, .todo⟩⟩ : BPRow).task.topicId = none ∨
        ∀ s ∈ ([⟨0, some 1, -7, true, 5⟩] : List SessionRec),
          ¬(s.userId = 0 ∧ s.ended = true ∧ (0 : Int) - 7 ≤ s.startedDate ∧
            s.topicId =
              (⟨⟨1, 0, "t", some 1, none, 2, .todo⟩,
                taskScore [⟨1, 0, 0⟩]
                  (topicRecent [⟨0, some 1, -7, true, 5⟩] 0 0) 0 0
                  ⟨1, 0, "t", some 1, none, 2, .todo⟩⟩ : BPRow).task.topicId))) :=
  blueprint_recency_component [⟨0, some 1, -7, true, 5⟩] [⟨1, 0, 0⟩]
    [⟨1, 0, "t", some 1, none, 2, .todo⟩] 0 5 0 _
    (by rw [blueprint_single_eval [⟨0, some 1, -7, true, 5⟩] [⟨1, 0, 0⟩]
          ⟨1, 0, "t", some 1, none, 2, .todo⟩ 0 5 0 rfl (by omega)]
        exact List.mem_singleton.mpr rfl)

/-- C3 counterexample: the only session of the topic was started on day
`today - 7`, outside the claimed window `[today - 6, today]`, so the claim
predicts `recency_component = 1` and score `round6(0.45*2 + 0.15*1) =
1.05`; the source's `__gte today - 7` filter marks the topic as recent and
the returned score is `round6(0.45*2) = 0.9`. -/
theorem blueprint_recency_eight_day_window :
    ((blueprint [⟨0, some 1, -7, true, 5⟩] [⟨1, 0, 0⟩]
        [⟨1, 0, "t", some 1, none, 2, .todo⟩] 0 5 0).map (·.score)) = [9 / 10] ∧
    (∀ s ∈ ([⟨0, some 1, -7, true, 5⟩] : List SessionRec),
      ¬ inClaimedWindow 7 0 s.startedDate) ∧
    (9 / 10 : ℚ) ≠ roundTo6 ((45 / 100) * 2 + (30 / 100) * 0 +
      (15 / 100) * 1 + (10 / 100) * 0) := by
  refine ⟨?_, by decide, by norm_num [roundTo6, round_eq]⟩
  rw [blueprint_single_eval [⟨0, some 1, -7, true, 5⟩] [⟨1, 0, 0⟩]
    ⟨1, 0, "t", some 1, none, 2, .todo⟩ 0 5 0 rfl (by omega)]
  simp only [List.map_cons, List.map_nil]
  have hsc : taskScore [⟨1, 0, 0⟩]
      (topicRecent [⟨0, some 1, -7, true, 5⟩] 0 0) 0 0
      ⟨1, 0, "t", some 1, none, 2, .todo⟩ = 9 / 10 := by
    simp only [taskScore, lookupStruggle, inRecent, topicRecent, roundTo6]
    norm_num [List.filter, List.filterMap, List.dedup, round_eq]
  rw [hsc]

/-- C7: the list `blueprint` returns is sorted descending by score with
ties broken by earlier due date (a task without a due date keys to
`date.max`, so it sorts after every dated task), then higher priority,
then not-recently-studied before recently-studied; its length never
exceeds `limit`; and it is empty when the owner has no open task. -/
theorem blueprint_ranking (sessions : List SessionRec)
    (topics : List TopicRec) (tasks : List TaskRec) (user : Nat)
    (limit : Nat) (today : Int) :
    (blueprint sessions topics tasks user limit today).Pairwise (fun a b =>
      b.score < a.score ∨ (a.score = b.score ∧
        (a.task.due_date.getD dateMax < b.task.due_date.getD dateMax ∨
          (a.task.due_date.getD dateMax = b.task.due_date.getD dateMax ∧
            (b.task.priority < a.task.priority ∨
              (a.task.priority = b.task.priority ∧
                (inRecent (topicRecent sessions user today) a.task.topicId = false ∨
                  inRecent (topicRecent sessions user today) b.task.topicId = true))))))) ∧
    (blueprint sessions topics tasks user limit today).length ≤ limit ∧
    ((∀ t ∈ tasks, ¬(t.userId = user ∧
        (t.status = Status.todo ∨ t.status = Status.doing))) →
      blueprint sessions topics tasks user limit today = []) := by
  refine ⟨?_, List.length_take_le _ _, ?_⟩
  · have hs := List.sorted_mergeSort
      (bpLE_trans (topicRecent sessions user today))
      (bpLE_total (topicRecent sessions user today))
      ((tasks.filter (fun t => t.userId == user && isOpen t)).map
        (fun r => ⟨r, taskScore topics (topicRecent sessions user today)
          user today r⟩))
    have hsub : List.Sublist (blueprint sessions topics tasks user limit today)
        (((tasks.filter (fun t => t.userId == user && isOpen t)).map
          (fun r => ⟨r, taskScore topics (topicRecent sessions user today)
            user today r⟩)).mergeSort
          (bpLE (topicRecent sessions user today))) :=
      List.take_sublist _ _
    refine (hs.sublist hsub).imp ?_
    intro a b hab
    simp only [bpLE, decide_eq_true_eq, bpKey, Prod.Lex.le_iff] at hab
    rcases hab with h | ⟨h1, hab⟩
    · exact Or.inl (neg_lt_neg_iff.mp h)
    · refine Or.inr ⟨neg_inj.mp h1, ?_⟩
      rcases hab with h | ⟨h2, hab⟩
      · exact Or.inl h
      · refine Or.inr ⟨h2, ?_⟩
        rcases hab with h | ⟨h3, h4⟩
        · refine Or.inl ?_
          have hc : (b.task.priority : Int) < (a.task.priority : Int) := by
            omega
          exact_mod_cast hc
        · refine Or.inr ⟨?_, ?_⟩
          · have hc : (a.task.priority : Int) = (b.task.priority : Int) := by
              omega
            exact_mod_cast hc
          · cases hfa : inRecent (topicRecent sessions user today) a.task.topicId <;>
              cases hfb : inRecent (topicRecent sessions user today) b.task.topicId <;>
              simp [hfa, hfb] at h4 ⊢
  · intro hnone
    have hfil : tasks.filter (fun t => t.userId == user && isOpen t) = [] := by
      rw [List.filter_eq_nil_iff]
      intro t ht
      have hcon := hnone t ht
      simp only [isOpen, Bool.and_eq_true, Bool.or_eq_true, beq_iff_eq]
      rintro ⟨h1, h2⟩
      exact hcon ⟨h1, h2⟩
    unfold blueprint
    rw [hfil]
    simp [List.mergeSort_nil]

/-- Witness for C7: an empty task store ranks to the empty list. -/
theorem blueprint_ranking_witness :
    blueprint [] [] [] 0 5 0 = [] :=
  (blueprint_ranking [] [] [] 0 5 0).2.2 (by simp)

end FocusFlow
